import Mathlib

/-!
Verification of the badge generation script (scripts/generate_badges.py).

The script shells out to external tools and rewrites text files; we embed its
pure text-processing core shallowly: file contents and command outputs are
explicit inputs (lists of characters), Python regular-expression operations
are translated into executable scanning functions, and Python floats are
modelled as rationals.  Strings are modelled as `List Char`.
-/

/-- Drops `pat` from the front of a list: `some rest` iff the list is
`pat ++ rest`.  This models both `str.startswith` tests and literal-prefix
matching inside regex scans. -/
def dropPre : List Char → List Char → Option (List Char)
  | [], s => some s
  | _ :: _, [] => none
  | p :: ps, c :: cs => if c = p then dropPre ps cs else none

/-- Python's `needle in haystack` substring test. -/
def containsSub (pat : List Char) : List Char → Bool
  | [] => (dropPre pat []).isSome
  | c :: cs => (dropPre pat (c :: cs)).isSome || containsSub pat cs

/-- Python's `str.split('\n')`. -/
def splitNl : List Char → List (List Char)
  | [] => [[]]
  | c :: cs =>
    if c = '\n' then [] :: splitNl cs
    else
      match splitNl cs with
      | [] => [[c]]
      | l :: ls => (c :: l) :: ls

/-- Python regex `\s` on ASCII text. -/
def wsChar (c : Char) : Bool :=
  c = ' ' || c = '\t' || c = '\n' || c = '\r' || c = '\x0b' || c = '\x0c'

/-- Python regex `\w` on ASCII text. -/
def wordChar (c : Char) : Bool :=
  c.isAlpha || c.isDigit || c = '_'

/-- After seeing `ESC [`, consume `[0-9;]*` and require a final `m`;
returns the remainder past the `m`. -/
def skipAnsiBody : List Char → Option (List Char)
  | [] => none
  | c :: cs =>
    if c = 'm' then some cs
    else if c.isDigit || c = ';' then skipAnsiBody cs
    else none

/-- Fuelled worker for `stripAnsi`; the fuel is an upper bound on the number
of characters still to be processed, so `fuel = length` is always enough. -/
def stripAnsiF : Nat → List Char → List Char
  | 0, s => s
  | _ + 1, [] => []
  | fuel + 1, c :: cs =>
    if c = '\x1b' then
      match cs with
      | '[' :: cs2 =>
        match skipAnsiBody cs2 with
        | some r => stripAnsiF fuel r
        | none => c :: stripAnsiF fuel cs
      | _ => c :: stripAnsiF fuel cs
    else c :: stripAnsiF fuel cs

/-- `re.sub(r'\x1b\[[0-9;]*m', '', line)`: removes ANSI colour codes. -/
def stripAnsi (s : List Char) : List Char := stripAnsiF s.length s

/-- A Testament output line counted as a file-level pass:
`"PASS:" in clean_line and ".nim c" in clean_line`. -/
def passLine (l : List Char) : Bool :=
  containsSub (("PASS:").toList) (stripAnsi l) &&
    containsSub ((".nim c").toList) (stripAnsi l)

/-- A Testament output line bearing the fail marker: `"FAIL:" in clean_line`. -/
def failLine (l : List Char) : Bool :=
  containsSub (("FAIL:").toList) (stripAnsi l)

/-- `len(re.findall(r'^block:', content, re.MULTILINE))`: the number of lines
of `content` that start with `block:`. -/
def countBlocks (content : List Char) : Nat :=
  ((splitNl content).filter (fun l => (dropPre (("block:").toList) l).isSome)).length

/-- The `test_results` record built by `run_tests`. -/
structure TestResults where
  status : List Char
  passed : Nat
  failed : Nat
  total : Nat
  test_functions : Nat
deriving DecidableEq

/-- `run_tests`, as a function of the Testament exit code, the captured
stdout, and the contents of the readable `tests/t_*.nim` files (a file whose
read raises is skipped by the script and so is simply absent here). -/
def run_tests (exitCode : Nat) (stdout : List Char) (testFiles : List (List Char)) :
    TestResults :=
  if exitCode = 0 then
    let lines := splitNl stdout
    let passedFiles := (lines.filter passLine).length
    let failedFiles := (lines.filter (fun l => !passLine l && failLine l)).length
    let testBlocks := (testFiles.map countBlocks).sum
    if 0 < passedFiles ∧ failedFiles = 0 then
      ⟨("passing").toList, testBlocks, 0, testBlocks, testBlocks⟩
    else if 0 < failedFiles then
      ⟨("failing").toList, 0, testBlocks, testBlocks, testBlocks⟩
    else
      ⟨("no tests").toList, 0, 0, 0, 0⟩
  else
    ⟨("failing").toList, 0, 0, 0, 0⟩

/-- Splits a list at the first `"` character: `some (before, after)` when a
quote exists.  Models the `[^"]+"` tail of the version regex. -/
def takeToQuote : List Char → Option (List Char × List Char)
  | [] => none
  | c :: cs =>
    if c = '"' then some ([], cs)
    else
      match takeToQuote cs with
      | some (v, r) => some (c :: v, r)
      | none => none

/-- Attempts `version\s*=\s*"([^"]+)"` anchored at the head of `s`, returning
the captured group. -/
def matchVersionAt (s : List Char) : Option (List Char) :=
  match dropPre (("version").toList) s with
  | none => none
  | some s1 =>
    match s1.dropWhile (fun c => wsChar c) with
    | '=' :: s2 =>
      match s2.dropWhile (fun c => wsChar c) with
      | '"' :: s3 =>
        match takeToQuote s3 with
        | some (v, _) => if v = [] then none else some v
        | none => none
      | _ => none
    | _ => none

/-- `re.search(r'version\s*=\s*"([^"]+)"', content)`: first match wins. -/
def findVersion : List Char → Option (List Char)
  | [] => none
  | c :: cs =>
    match matchVersionAt (c :: cs) with
    | some v => some v
    | none => findVersion cs

/-- `get_project_version`, as a function of the globbed `*.nimble` files in
order; `none` stands for a file whose read raises (caught by the script). -/
def get_project_version (nimbleFiles : List (Option (List Char))) : List Char :=
  match nimbleFiles with
  | [] => ("0.1.0").toList
  | none :: _ => ("0.1.0").toList
  | some content :: _ =>
    match findVersion content with
    | some v => v
    | none => ("0.1.0").toList

/-- Maps a `nim check` exit code to the build status string. -/
def statusOf (e : Nat) : List Char :=
  if e = 0 then ("passing").toList else ("failing").toList

/-- The filesystem and toolchain facts `generate_build_status` consults:
whether the two fixed candidate entry files exist, the `rglob("*.nim")`
results in order, and the exit code of `nim check` on a given path. -/
structure BuildEnv where
  mainExists : Bool
  srcMainExists : Bool
  nimFiles : List (List Char)
  checkExit : List Char → Nat

/-- `generate_build_status`. -/
def generate_build_status (env : BuildEnv) : List Char :=
  if env.mainExists then statusOf (env.checkExit (("main.nim").toList))
  else if env.srcMainExists then statusOf (env.checkExit (("src/main.nim").toList))
  else
    match env.nimFiles with
    | [] => ("no source").toList
    | f :: fs =>
      if (f :: fs).any (fun p => containsSub (("test").toList) p) then
        ("no source").toList
      else statusOf (env.checkExit f)

/-- Python `s.replace(t, new)` for a single-character needle `t`. -/
def replChar (t : Char) (new : List Char) : List Char → List Char
  | [] => []
  | c :: cs => if c = t then new ++ replChar t new cs else c :: replChar t new cs

/-- The escaping `create_badge_url` applies to its label and message:
`s.replace("%", "%25").replace(" ", "%20")`, in that order. -/
def escapeField (s : List Char) : List Char :=
  replChar ' ' (("%20").toList) (replChar '%' (("%25").toList) s)

/-- `create_badge_url`. -/
def create_badge_url (label message color : List Char) : List Char :=
  ("https://img.shields.io/badge/").toList ++ escapeField label ++
    ('-' :: escapeField message) ++ ('-' :: color) ++ (".svg").toList

/-- One attempt of `\s*KW\s+\w+` (the body of `^\s*proc\s+\w+` past the `^`
anchor) at the current position; on success returns the remainder past the
greedy `\w+`. -/
def declMatchAt (kw : List Char) (s : List Char) : Option (List Char) :=
  match dropPre kw (s.dropWhile (fun c => wsChar c)) with
  | none => none
  | some s2 =>
    match s2 with
    | [] => none
    | c :: rest =>
      if wsChar c then
        match rest.dropWhile (fun c => wsChar c) with
        | [] => none
        | d :: rest2 =>
          if wordChar d then some (rest2.dropWhile (fun c => wordChar c)) else none
      else none

/-- Fuelled scan implementing `len(re.findall(r'^\s*KW\s+\w+', content,
re.MULTILINE))`: the flag records whether the current position is a line
start (where `^` matches); after a hit the scan resumes past the match, as
`findall` does.  Fuel bounds the characters left, so `length` is enough. -/
def countDeclF (kw : List Char) : Nat → Bool → List Char → Nat
  | 0, _, _ => 0
  | _ + 1, _, [] => 0
  | fuel + 1, atStart, c :: cs =>
    if atStart then
      match declMatchAt kw (c :: cs) with
      | some r => 1 + countDeclF kw fuel false r
      | none => countDeclF kw fuel (c = '\n') cs
    else countDeclF kw fuel (c = '\n') cs

/-- Number of `^\s*KW\s+\w+` matches in `content`. -/
def countDecl (kw : List Char) (content : List Char) : Nat :=
  countDeclF kw content.length true content

/-- A `*.nim` file as seen by `estimate_coverage_fallback`'s `rglob` walk:
whether it lies under `tests/`, its basename, and its content (`none` when
reading raises, which the script swallows). -/
structure NimFile where
  underTests : Bool
  name : List Char
  content : Option (List Char)

/-- Test blocks counted by the fallback: files under `tests/` whose name
starts with `t_`, summing `^block:` line counts. -/
def fb_test_blocks (files : List NimFile) : Nat :=
  (files.map fun f =>
    if f.underTests && (dropPre (("t_").toList) f.name).isSome then
      match f.content with
      | some c => countBlocks c
      | none => 0
    else 0).sum

/-- Source functions counted by the fallback: files neither under `tests/`
nor with `test` in their lowercased name, summing `proc` and `func`
declaration counts. -/
def fb_src_functions (files : List NimFile) : Nat :=
  (files.map fun f =>
    if !f.underTests && !containsSub (("test").toList) (f.name.map Char.toLower) then
      match f.content with
      | some c => countDecl (("proc").toList) c + countDecl (("func").toList) c
      | none => 0
    else 0).sum

/-- `estimate_coverage_fallback`; the Python float arithmetic is modelled
exactly in the rationals. -/
def estimate_coverage_fallback (files : List NimFile) : ℚ :=
  if fb_src_functions files = 0 then 0
  else min ((fb_test_blocks files : ℚ) / (fb_src_functions files : ℚ) * 85) 95

/-- The coverage badge colour chosen in `generate_badges`. -/
def coverage_color (c : ℚ) : List Char :=
  if 90 ≤ c then ("brightgreen").toList
  else if 70 ≤ c then ("yellow").toList
  else ("red").toList

/-- Decimal rendering of a count, as Python string interpolation produces. -/
def natChars (n : Nat) : List Char := (Nat.repr n).toList

/-- The tests badge message chosen in `generate_badges`. -/
def tests_badge_message (r : TestResults) : List Char :=
  if 0 < r.total then
    if r.status = ("failing").toList then
      natChars r.total ++ (" tests (").toList ++ natChars r.failed ++ (" failed)").toList
    else natChars r.total ++ (" tests").toList
  else ("no tests").toList

/-- The tests badge colour chosen in `generate_badges`. -/
def tests_badge_color (r : TestResults) : List Char :=
  if r.status = ("passing").toList then ("brightgreen").toList
  else if r.status = ("failing").toList then ("red").toList
  else ("lightgrey").toList

/-- Consumes `[^)]*\)`: everything up to and including the first `)`. -/
def findCloseParen : List Char → Option (List Char)
  | [] => none
  | c :: cs => if c = ')' then some cs else findCloseParen cs

/-- The `.*?\]\([^)]*\)` tail of the README badge patterns, with Python's
lazy/greedy backtracking semantics made explicit: the lazy `.*?` grows one
character at a time (never past a newline), and at each stop the literal
`](` followed by `[^)]*\)` is attempted; a failed attempt falls back to
growing `.*?` over the `]`. -/
def matchLazy : List Char → Option (List Char)
  | [] => none
  | [_] => none
  | c :: d :: cs2 =>
    if c = ']' ∧ d = '(' then
      match findCloseParen cs2 with
      | some r => some r
      | none => matchLazy (d :: cs2)
    else if c = '\n' then none
    else matchLazy (d :: cs2)

/-- One attempt of a whole badge pattern `LIT.*?\]\([^)]*\)` at the current
position; on success returns the remainder past the match. -/
def tryMatchPat (lit : List Char) (s : List Char) : Option (List Char) :=
  (dropPre lit s).bind matchLazy

/-- Fuelled worker for `subPat`; fuel bounds the characters left, and each
step consumes at least one, so `fuel = length` is always enough. -/
def subPatF (lit repl : List Char) : Nat → List Char → List Char
  | 0, s => s
  | _ + 1, [] => []
  | fuel + 1, c :: cs =>
    match tryMatchPat lit (c :: cs) with
    | some r => repl ++ subPatF lit repl fuel r
    | none => c :: subPatF lit repl fuel cs

/-- `re.sub(LIT + r'.*?\]\([^)]*\)', repl, content)`: replaces every
leftmost, non-overlapping match and never rescans the replacement. -/
def subPat (lit repl : List Char) (s : List Char) : List Char :=
  subPatF lit repl s.length s

/-- The badge URL mapping built by `generate_badges` and consumed by
`update_readme`. -/
structure Badges where
  build : List Char
  coverage : List Char
  tests : List Char
  version : List Char

/-- The replacement `[![X](url)](#)` for a pattern whose literal head is
`lit = "[![X]"`. -/
def mkLink (lit url : List Char) : List Char :=
  lit ++ '(' :: (url ++ ')' :: ']' :: '(' :: '#' :: ')' :: [])

/-- `update_readme`'s content rewriting: the four substitutions applied in
the script's order (Build Status, Test Coverage, Tests, Version). -/
def update_readme (b : Badges) (content : List Char) : List Char :=
  subPat (("[![Version]").toList) (mkLink (("[![Version]").toList) b.version)
    (subPat (("[![Tests]").toList) (mkLink (("[![Tests]").toList) b.tests)
      (subPat (("[![Test Coverage]").toList) (mkLink (("[![Test Coverage]").toList) b.coverage)
        (subPat (("[![Build Status]").toList) (mkLink (("[![Build Status]").toList) b.build)
          content)))

/-- The four badge categories of `update_readme`. -/
inductive BCat
  | bld
  | cov
  | tst
  | ver
deriving DecidableEq

/-- The literal head of each category's pattern. -/
def catLit : BCat → List Char
  | .bld => ("[![Build Status]").toList
  | .cov => ("[![Test Coverage]").toList
  | .tst => ("[![Tests]").toList
  | .ver => ("[![Version]").toList

/-- The fresh badge URL substituted for each category. -/
def catUrl (b : Badges) : BCat → List Char
  | .bld => b.build
  | .cov => b.coverage
  | .tst => b.tests
  | .ver => b.version

/-- A README built from plain segments interleaved with badge image-links:
`assemble s0 [(c1,u1,s1), ...] = s0 ++ link c1 u1 ++ s1 ++ ...`. -/
def assemble : List Char → List (BCat × List Char × List Char) → List Char
  | s0, [] => s0
  | s0, (c, u, s) :: rest => s0 ++ mkLink (catLit c) u ++ assemble s rest

/-- A plain README segment: free of `[`, so no badge pattern can start or
reach inside it. -/
def noBr (s : List Char) : Prop := ∀ x ∈ s, x ≠ '['

/-- A well-behaved URL inside a markdown image-link: free of the characters
that interact with the badge patterns or with `re.sub` replacement escapes. -/
def urlOk (u : List Char) : Prop :=
  ∀ x ∈ u, x ≠ '[' ∧ x ≠ ']' ∧ x ≠ ')' ∧ x ≠ '\n' ∧ x ≠ '\\'

/-- A concrete source tree for the C6 example: one test file with four
`block:` blocks and one source file with five `proc` declarations. -/
def c6files : List NimFile :=
  [⟨true, ("t_a.nim").toList, some (("block:\nblock:\nblock:\nblock:").toList)⟩,
    ⟨false, ("main.nim").toList,
      some (("proc a\nproc b\nproc c\nproc d\nproc e").toList)⟩]

/-- Claim C7: whenever no manifest file exists, the first manifest's read
raises, or its content has no `version = "..."` field, `get_project_version`
returns `"0.1.0"`.  (The embedding is a total function, so the fallback is
returned rather than an exception propagated.) -/
theorem claim_C7 (fs : List (Option (List Char)))
    (h : fs = [] ∨ (∃ t, fs = none :: t) ∨
      ∃ c t, fs = some c :: t ∧ findVersion c = none) :
    get_project_version fs = ("0.1.0").toList := by
  rcases h with h | ⟨t, h⟩ | ⟨c, t, h, hv⟩ <;> subst h <;>
    simp [get_project_version, *]

/-- Witness for C7 at the empty glob result. -/
theorem claim_C7_witness : get_project_version [] = ("0.1.0").toList :=
  claim_C7 [] (Or.inl rfl)

/-- Claim C10: with several `.nimble` files globbed, only the first is
consulted; if it lacks a version field the fallback `"0.1.0"` is returned
even when a later manifest does carry a version assignment. -/
theorem claim_C10 (c1 c2 v : List Char) (rest : List (Option (List Char)))
    (h1 : findVersion c1 = none) (_h2 : findVersion c2 = some v) :
    get_project_version (some c1 :: some c2 :: rest) = ("0.1.0").toList := by
  simp [get_project_version, h1]

/-- Witness for C10: the first manifest lacks a version, the second has
`version = "1.2.3"`. -/
theorem claim_C10_witness :
    get_project_version
      [some (("x").toList), some (("version = \"1.2.3\"").toList)] =
      ("0.1.0").toList :=
  claim_C10 (("x").toList) (("version = \"1.2.3\"").toList)
    (("1.2.3").toList) [] (by decide) (by decide)

/-- Claim C8: every record `run_tests` returns satisfies
`passed + failed = total`, `total = test_functions`, and its status is one
of `"no tests"`, `"passing"`, `"failing"`. -/
theorem claim_C8 (ec : Nat) (stdout : List Char) (files : List (List Char)) :
    (run_tests ec stdout files).passed + (run_tests ec stdout files).failed =
        (run_tests ec stdout files).total ∧
      (run_tests ec stdout files).total = (run_tests ec stdout files).test_functions ∧
      ((run_tests ec stdout files).status = ("no tests").toList ∨
        (run_tests ec stdout files).status = ("passing").toList ∨
        (run_tests ec stdout files).status = ("failing").toList) := by
  unfold run_tests
  by_cases h0 : ec = 0
  · by_cases h1 : 0 < ((splitNl stdout).filter passLine).length ∧
        ((splitNl stdout).filter (fun l => !passLine l && failLine l)).length = 0
    · simp only [h0, if_pos rfl, if_pos h1]
      simp
    · by_cases h2 :
          0 < ((splitNl stdout).filter (fun l => !passLine l && failLine l)).length
      · simp only [h0, if_pos rfl, if_neg h1, if_pos h2]
        simp
      · simp only [h0, if_pos rfl, if_neg h1, if_neg h2]
        simp
  · simp only [if_neg h0]
    simp

/-- Claim C4: a Testament run exiting 0 whose output has `N ≥ 1` lines
bearing both the pass marker and the compile-unit marker and no line bearing
the fail marker, with `M` counted test blocks, yields status `"passing"`
with `total = passed = test_functions = M` and `failed = 0`. -/
theorem claim_C4 (stdout : List Char) (files : List (List Char)) (N M : Nat)
    (hN : ((splitNl stdout).filter passLine).length = N) (hN1 : 1 ≤ N)
    (hF : ∀ l ∈ splitNl stdout, failLine l = false)
    (hM : (files.map countBlocks).sum = M) :
    run_tests 0 stdout files = ⟨("passing").toList, M, 0, M, M⟩ := by
  have hfail :
      ((splitNl stdout).filter (fun l => !passLine l && failLine l)).length = 0 := by
    have : (splitNl stdout).filter (fun l => !passLine l && failLine l) = [] := by
      rw [List.filter_eq_nil_iff]
      intro l hl
      simp [hF l hl]
    rw [this]
    rfl
  have hp : 0 < ((splitNl stdout).filter passLine).length := by
    rw [hN]; omega
  unfold run_tests
  rw [if_pos rfl, if_pos ⟨hp, hfail⟩, hM]

/-- Witness for C4: one passing file-level line and a single test block. -/
theorem claim_C4_witness :
    run_tests 0 (("PASS: tests/ta.nim c").toList) [(("block:").toList)] =
      ⟨("passing").toList, 1, 0, 1, 1⟩ :=
  claim_C4 (("PASS: tests/ta.nim c").toList) [(("block:").toList)] 1 1
    (by decide) (by decide) (by decide) (by decide)

/-- Counterexample to claim C5 as stated: the output line
`PASS: a.nim c FAIL: x` bears the fail marker, yet because a line carrying
both the pass and compile-unit markers is classified as a file-level pass
(the `elif` never runs), `run_tests` reports `"passing"` with `passed = 1`,
not `"failing"` with `passed = 0`. -/
theorem claim_C5_counterexample :
    failLine (("PASS: a.nim c FAIL: x").toList) = true ∧
      run_tests 0 (("PASS: a.nim c FAIL: x").toList) [(("block:").toList)] =
        ⟨("passing").toList, 1, 0, 1, 1⟩ := by
  decide

/-- Claim C5, amended: for a Testament run exiting 0 whose output has at
least one line that bears the fail marker and is not counted as a file-level
pass (a line bearing both the pass and compile-unit markers counts as a
pass, never a failure), `run_tests` returns `"failing"` with `passed = 0`
regardless of how many pass-marker lines appear, and
`total = failed = test_functions =` the counted test-block count. -/
theorem claim_C5_amended (stdout : List Char) (files : List (List Char)) (B : Nat)
    (hB : (files.map countBlocks).sum = B)
    (hf : 0 < ((splitNl stdout).filter (fun l => !passLine l && failLine l)).length) :
    run_tests 0 stdout files = ⟨("failing").toList, 0, B, B, B⟩ := by
  have h1 : ¬(0 < ((splitNl stdout).filter passLine).length ∧
      ((splitNl stdout).filter (fun l => !passLine l && failLine l)).length = 0) := by
    rintro ⟨-, h⟩
    omega
  unfold run_tests
  rw [if_pos rfl, if_neg h1, if_pos hf, hB]

/-- Witness for the amended C5: one fail-marker line, one test block. -/
theorem claim_C5_witness :
    run_tests 0 (("FAIL: x").toList) [(("block:").toList)] =
      ⟨("failing").toList, 0, 1, 1, 1⟩ :=
  claim_C5_amended (("FAIL: x").toList) [(("block:").toList)] 1
    (by decide) (by decide)

/-- Claim C9: a run exiting 0 with at least one file-level pass line, no
fail-marker line, and zero counted test blocks yields status `"passing"`
with `total = 0`; `generate_badges` then gives the tests badge the message
`"no tests"` but the colour `"brightgreen"`. -/
theorem claim_C9 (stdout : List Char) (files : List (List Char))
    (hp : 0 < ((splitNl stdout).filter passLine).length)
    (hF : ∀ l ∈ splitNl stdout, failLine l = false)
    (hb : (files.map countBlocks).sum = 0) :
    (run_tests 0 stdout files).status = ("passing").toList ∧
      (run_tests 0 stdout files).total = 0 ∧
      tests_badge_message (run_tests 0 stdout files) = ("no tests").toList ∧
      tests_badge_color (run_tests 0 stdout files) = ("brightgreen").toList := by
  have hfail :
      ((splitNl stdout).filter (fun l => !passLine l && failLine l)).length = 0 := by
    have : (splitNl stdout).filter (fun l => !passLine l && failLine l) = [] := by
      rw [List.filter_eq_nil_iff]
      intro l hl
      simp [hF l hl]
    rw [this]
    rfl
  have hr : run_tests 0 stdout files = ⟨("passing").toList, 0, 0, 0, 0⟩ := by
    unfold run_tests
    rw [if_pos rfl, if_pos ⟨hp, hfail⟩, hb]
  rw [hr]
  refine ⟨rfl, rfl, ?_, ?_⟩ <;> decide

/-- Witness for C9: a passing file-level line with no test blocks on disk. -/
theorem claim_C9_witness :
    (run_tests 0 (("PASS: tests/ta.nim c").toList) []).status = ("passing").toList ∧
      (run_tests 0 (("PASS: tests/ta.nim c").toList) []).total = 0 ∧
      tests_badge_message (run_tests 0 (("PASS: tests/ta.nim c").toList) []) =
        ("no tests").toList ∧
      tests_badge_color (run_tests 0 (("PASS: tests/ta.nim c").toList) []) =
        ("brightgreen").toList :=
  claim_C9 (("PASS: tests/ta.nim c").toList) [] (by decide) (by decide) rfl

/-- Counterexample to claim C1 as stated: with neither candidate entry file
present and a tree containing the non-test file `src/foo.nim` alongside
`tests/tfoo.nim`, the checker reports `"no source"` although a non-test
source file exists — because the code bails out whenever any globbed file
has `test` in its path, instead of filtering such files out. -/
theorem claim_C1_counterexample :
    generate_build_status
        ⟨false, false, [(("src/foo.nim").toList), (("tests/tfoo.nim").toList)],
          fun _ => 0⟩ =
        ("no source").toList ∧
      containsSub (("test").toList) (("src/foo.nim").toList) = false := by
  decide

/-- Claim C1, amended: the build checker first tries the fixed candidate
entry paths `main.nim` and `src/main.nim`; when neither exists it globs the
whole source tree and checks the first globbed file only when no globbed
file at all has `test` in its path, and it reports `"no source"` exactly
when the glob is empty or some globbed file has `test` in its path. -/
theorem claim_C1_amended (env : BuildEnv)
    (h1 : env.mainExists = false) (h2 : env.srcMainExists = false) :
    (generate_build_status env = ("no source").toList ↔
      (env.nimFiles = [] ∨
        env.nimFiles.any (fun p => containsSub (("test").toList) p) = true)) ∧
    ∀ f fs, env.nimFiles = f :: fs →
      (f :: fs).any (fun p => containsSub (("test").toList) p) = false →
      generate_build_status env = statusOf (env.checkExit f) := by
  have hs : ∀ e : Nat, statusOf e ≠ ("no source").toList := by
    intro e
    unfold statusOf
    split <;> decide
  unfold generate_build_status
  rw [h1, h2]
  simp only [Bool.false_eq_true, if_false]
  cases hnf : env.nimFiles with
  | nil =>
    constructor
    · simp
    · intro f fs hff
      cases hff
  | cons f fs =>
    dsimp only
    constructor
    · by_cases ha : (f :: fs).any (fun p => containsSub (("test").toList) p) = true
      · rw [if_pos ha]
        exact iff_of_true rfl (Or.inr ha)
      · rw [if_neg ha]
        rw [Bool.not_eq_true] at ha
        constructor
        · intro hcontra
          exact absurd hcontra (hs _)
        · rintro (hnil | hany)
          · cases hnil
          · rw [ha] at hany
            cases hany
    · intro f2 fs2 hff haf
      injection hff with hf hfs
      subst hf
      subst hfs
      have hne : ¬(((f :: fs).any fun p => containsSub (("test").toList) p) = true) := by
        rw [haf]
        simp
      rw [if_neg hne]

/-- Witness for the amended C1: a tree with a single non-test file is
checked and (with exit code 0) reported `"passing"`. -/
theorem claim_C1_witness :
    generate_build_status ⟨false, false, [(("foo.nim").toList)], fun _ => 0⟩ =
      ("passing").toList := by
  have h :=
    (claim_C1_amended ⟨false, false, [(("foo.nim").toList)], fun _ => 0⟩ rfl rfl).2
      (("foo.nim").toList) [] rfl (by decide)
  rw [h]
  decide

/-- If a character does not occur, replacing it is the identity. -/
theorem replChar_of_count_zero (t : Char) (new : List Char) :
    ∀ s : List Char, s.count t = 0 → replChar t new s = s := by
  intro s
  induction s with
  | nil => intro _; rfl
  | cons c cs ih =>
    intro h
    rw [List.count_cons] at h
    by_cases hc : c = t
    · simp [hc] at h
    · unfold replChar
      rw [if_neg hc, ih (by omega)]

/-- Length after replacing one character by a three-character string. -/
theorem replChar_length3 (t : Char) (new : List Char) (hlen : new.length = 3) :
    ∀ s : List Char, (replChar t new s).length = s.length + 2 * s.count t := by
  intro s
  induction s with
  | nil => rfl
  | cons c cs ih =>
    unfold replChar
    by_cases hc : c = t
    · rw [if_pos hc]
      simp only [List.length_append, List.length_cons, List.count_cons, ih, hc, hlen]
      simp
      omega
    · rw [if_neg hc]
      simp only [List.length_cons, List.count_cons, ih]
      have : ¬(c == t) = true := by simpa using hc
      simp [this]
      omega

/-- Counting a character that the replacement neither targets nor contains. -/
theorem replChar_count_other (t u : Char) (new : List Char) (hne : u ≠ t)
    (hnew : new.count u = 0) :
    ∀ s : List Char, (replChar t new s).count u = s.count u := by
  intro s
  induction s with
  | nil => rfl
  | cons c cs ih =>
    unfold replChar
    by_cases hc : c = t
    · rw [if_pos hc, List.count_append, hnew, ih, List.count_cons]
      have : ¬(c == u) = true := by
        simp only [beq_iff_eq]
        rw [hc]
        exact fun h => hne h.symm
      simp [this]
    · rw [if_neg hc, List.count_cons, List.count_cons, ih]

/-- Counting a character that the replacement string contains exactly once:
each replaced occurrence of `t` contributes one `u`. -/
theorem replChar_count_once (t u : Char) (new : List Char) (hne : u ≠ t)
    (hnew : new.count u = 1) :
    ∀ s : List Char, (replChar t new s).count u = s.count u + s.count t := by
  intro s
  induction s with
  | nil => rfl
  | cons c cs ih =>
    unfold replChar
    by_cases hc : c = t
    · rw [if_pos hc, List.count_append, hnew, ih, List.count_cons, List.count_cons]
      have h1 : ¬(c == u) = true := by
        simp only [beq_iff_eq]
        rw [hc]
        exact fun h => hne h.symm
      have h2 : (c == t) = true := by simpa using hc
      simp [h1, h2]
      omega
    · rw [if_neg hc, List.count_cons, List.count_cons, ih, List.count_cons]
      have h2 : ¬(c == t) = true := by simpa using hc
      simp [h2]
      omega

/-- Counting the replaced character itself when the replacement contains it
exactly once: the count is preserved. -/
theorem replChar_count_self (t : Char) (new : List Char) (hnew : new.count t = 1) :
    ∀ s : List Char, (replChar t new s).count t = s.count t := by
  intro s
  induction s with
  | nil => rfl
  | cons c cs ih =>
    unfold replChar
    by_cases hc : c = t
    · rw [if_pos hc, List.count_append, hnew, ih, List.count_cons]
      have h2 : (c == t) = true := by simpa using hc
      simp [h2]
      omega
    · rw [if_neg hc, List.count_cons, List.count_cons, ih]

/-- Counting the replaced character when the replacement omits it: the count
drops to zero. -/
theorem replChar_count_gone (t : Char) (new : List Char) (hnew : new.count t = 0) :
    ∀ s : List Char, (replChar t new s).count t = 0 := by
  intro s
  induction s with
  | nil => rfl
  | cons c cs ih =>
    unfold replChar
    by_cases hc : c = t
    · rw [if_pos hc, List.count_append, hnew, ih]
    · rw [if_neg hc, List.count_cons, ih]
      have h2 : ¬(c == t) = true := by simpa using hc
      simp [h2]

/-- The percent count after `escapeField`: every original `%` survives (as
the head of `%25`) and every space becomes the `%` of `%20`. -/
theorem escapeField_count_pct (s : List Char) :
    (escapeField s).count '%' = s.count '%' + s.count ' ' := by
  unfold escapeField
  rw [replChar_count_once ' ' '%' (("%20").toList) (by decide) (by decide),
    replChar_count_self '%' (("%25").toList) (by decide),
    replChar_count_other '%' ' ' (("%25").toList) (by decide) (by decide)]

/-- `escapeField` leaves no spaces behind. -/
theorem escapeField_count_space (s : List Char) : (escapeField s).count ' ' = 0 := by
  unfold escapeField
  exact replChar_count_gone ' ' (("%20").toList) (by decide) _

/-- Length growth of `escapeField`: two extra characters per `%` or space. -/
theorem escapeField_length (s : List Char) :
    (escapeField s).length = s.length + 2 * (s.count '%' + s.count ' ') := by
  unfold escapeField
  rw [replChar_length3 ' ' (("%20").toList) (by decide),
    replChar_length3 '%' (("%25").toList) (by decide),
    replChar_count_other '%' ' ' (("%25").toList) (by decide) (by decide)]
  omega

/-- `escapeField` is the identity on strings with no `%` and no space. -/
theorem escapeField_of_clean (s : List Char) (h1 : s.count '%' = 0)
    (h2 : s.count ' ' = 0) : escapeField s = s := by
  unfold escapeField
  rw [replChar_of_count_zero '%' _ s h1, replChar_of_count_zero ' ' _ s h2]

/-- Counterexample to claim C3 as stated: encoding the pair `(" ", "x")`
twice yields a different URL from encoding it once, because the `%` of the
`%20` produced by the first encoding is escaped again to `%2520`. -/
theorem claim_C3_counterexample :
    create_badge_url (escapeField ((" ").toList)) (escapeField (("x").toList))
        (("red").toList) ≠
      create_badge_url ((" ").toList) (("x").toList) (("red").toList) := by
  decide

/-- Claim C3, amended: the badge URL builder is idempotent exactly on
label/message pairs free of `%` and space characters (on those the escaping
is the identity); whenever the label or message contains `%` or a space,
re-encoding escapes the `%` of the escape sequences again and the URLs
differ.  Within a single call the `%`-then-space escaping is applied exactly
once. -/
theorem claim_C3_amended (l m c : List Char) :
    create_badge_url (escapeField l) (escapeField m) c = create_badge_url l m c ↔
      l.count '%' = 0 ∧ l.count ' ' = 0 ∧ m.count '%' = 0 ∧ m.count ' ' = 0 := by
  constructor
  · intro h
    have hlen := congrArg List.length h
    simp only [create_badge_url, List.length_append, List.length_cons] at hlen
    rw [escapeField_length (escapeField l), escapeField_length (escapeField m),
      escapeField_count_pct l, escapeField_count_pct m,
      escapeField_count_space l, escapeField_count_space m] at hlen
    refine ⟨?_, ?_, ?_, ?_⟩ <;> omega
  · rintro ⟨h1, h2, h3, h4⟩
    rw [escapeField_of_clean l h1 h2, escapeField_of_clean m h3 h4]

/-- Claim C6: the coverage fallback returns 0 when no source functions are
detected and otherwise `min(test_blocks / source_functions * 85, 95)`, so it
never exceeds 95; in particular 4 test blocks over 5 source functions yield
68.0, below the 70 threshold, so the coverage badge colour is `"red"`. -/
theorem claim_C6 (files : List NimFile) :
    estimate_coverage_fallback files ≤ 95 ∧
      (fb_src_functions files = 0 → estimate_coverage_fallback files = 0) ∧
      (fb_src_functions files ≠ 0 →
        estimate_coverage_fallback files =
          min ((fb_test_blocks files : ℚ) / (fb_src_functions files : ℚ) * 85) 95) ∧
      fb_test_blocks c6files = 4 ∧ fb_src_functions c6files = 5 ∧
      estimate_coverage_fallback c6files = 68 ∧
      coverage_color (estimate_coverage_fallback c6files) = ("red").toList := by
  have h4 : fb_test_blocks c6files = 4 := by decide
  have h5 : fb_src_functions c6files = 5 := by decide
  have h68 : estimate_coverage_fallback c6files = 68 := by
    unfold estimate_coverage_fallback
    rw [h4, h5]
    rw [if_neg (by norm_num)]
    norm_num [min_def]
  refine ⟨?_, ?_, ?_, h4, h5, h68, ?_⟩
  · unfold estimate_coverage_fallback
    split
    · norm_num
    · exact min_le_right _ _
  · intro h
    unfold estimate_coverage_fallback
    rw [if_pos h]
  · intro h
    unfold estimate_coverage_fallback
    rw [if_neg h]
  · rw [h68]
    unfold coverage_color
    rw [if_neg (by norm_num), if_neg (by norm_num)]

/-- Witness for C6, instantiating the zero-source-functions branch. -/
theorem claim_C6_witness : estimate_coverage_fallback [] = 0 :=
  (claim_C6 []).2.1 rfl

/-- `dropPre` succeeds exactly on lists with the literal prefix. -/
theorem dropPre_eq_some (p : List Char) :
    ∀ s r : List Char, dropPre p s = some r ↔ s = p ++ r := by
  induction p with
  | nil =>
    intro s r
    simp [dropPre]
  | cons x xs ih =>
    intro s r
    cases s with
    | nil => simp [dropPre]
    | cons c cs =>
      unfold dropPre
      by_cases hc : c = x
      · rw [if_pos hc, ih]
        subst hc
        simp
      · rw [if_neg hc]
        simp only [List.cons_append, List.cons.injEq]
        constructor
        · intro h
          exact Option.noConfusion h
        · rintro ⟨h1, -⟩
          exact absurd h1 hc

/-- Dropping a prefix can only shorten the list. -/
theorem dropPre_len (p s r : List Char) (h : dropPre p s = some r) :
    r.length ≤ s.length := by
  rw [dropPre_eq_some] at h
  subst h
  simp

/-- `dropPre p (p ++ z) = some z`. -/
theorem dropPre_self_append (p z : List Char) : dropPre p (p ++ z) = some z := by
  rw [dropPre_eq_some]

/-- If the pattern and the text already disagree within their first `k`
characters, the literal prefix cannot match. -/
theorem dropPre_none_of_take (p s : List Char) (k : Nat)
    (hkp : k ≤ p.length) (h : p.take k ≠ s.take k) :
    dropPre p s = none := by
  cases hd : dropPre p s with
  | none => rfl
  | some r =>
    rw [dropPre_eq_some] at hd
    exfalso
    apply h
    rw [hd, List.take_append_of_le_length hkp]

/-- Variant of `dropPre_none_of_take` with the text's prefix given
explicitly, so the disagreement is decidable even under open tails. -/
theorem dropPre_none_of_take_eq (p s pre : List Char) (k : Nat)
    (hkp : k ≤ p.length) (hs : s.take k = pre) (h : p.take k ≠ pre) :
    dropPre p s = none := by
  apply dropPre_none_of_take p s k hkp
  rw [hs]
  exact h

/-- `findCloseParen` strictly shortens the list. -/
theorem findCloseParen_len :
    ∀ s r : List Char, findCloseParen s = some r → r.length < s.length := by
  intro s
  induction s with
  | nil => intro r h; cases h
  | cons c cs ih =>
    intro r h
    unfold findCloseParen at h
    by_cases hc : c = ')'
    · rw [if_pos hc] at h
      cases h
      simp
    · rw [if_neg hc] at h
      have h1 := ih r h
      simp
      omega

/-- `matchLazy` strictly shortens the list. -/
theorem matchLazy_len :
    ∀ s r : List Char, matchLazy s = some r → r.length < s.length := by
  intro s
  induction s with
  | nil => intro r h; cases h
  | cons c cs ih =>
    intro r h
    cases cs with
    | nil => cases h
    | cons d cs2 =>
      unfold matchLazy at h
      by_cases hc : c = ']' ∧ d = '('
      · rw [if_pos hc] at h
        cases hf : findCloseParen cs2 with
        | some r2 =>
          rw [hf] at h
          cases h
          have h1 := findCloseParen_len cs2 r hf
          simp
          omega
        | none =>
          rw [hf] at h
          have h1 := ih r h
          simp at h1 ⊢
          omega
      · rw [if_neg hc] at h
        by_cases hn : c = '\n'
        · rw [if_pos hn] at h
          cases h
        · rw [if_neg hn] at h
          have h1 := ih r h
          simp at h1 ⊢
          omega

/-- A successful whole-pattern match strictly shortens the list. -/
theorem tryMatchPat_len (lit s r : List Char) (h : tryMatchPat lit s = some r) :
    r.length < s.length := by
  unfold tryMatchPat at h
  cases hd : dropPre lit s with
  | none => rw [hd] at h; cases h
  | some s2 =>
    rw [hd] at h
    have h1 := matchLazy_len s2 r h
    have h2 := dropPre_len lit s s2 hd
    omega

/-- A failed prefix makes the whole pattern fail. -/
theorem tryMatchPat_of_dropPre_none (lit s : List Char) (h : dropPre lit s = none) :
    tryMatchPat lit s = none := by
  unfold tryMatchPat
  rw [h]
  rfl

/-- The pattern cannot fire on a head other than its leading `[`. -/
theorem tryMatch_head_ne (l : List Char) (c : Char) (cs : List Char) (hc : c ≠ '[') :
    tryMatchPat ('[' :: l) (c :: cs) = none := by
  apply tryMatchPat_of_dropPre_none
  unfold dropPre
  rw [if_neg hc]

/-- The fuel of `subPatF` is irrelevant once it dominates the length. -/
theorem subPatF_irrel (lit repl : List Char) :
    ∀ f1 f2 s, s.length ≤ f1 → s.length ≤ f2 →
      subPatF lit repl f1 s = subPatF lit repl f2 s := by
  intro f1
  induction f1 with
  | zero =>
    intro f2 s h1 _
    have : s = [] := List.eq_nil_of_length_eq_zero (by omega)
    subst this
    cases f2 <;> rfl
  | succ f1 ih =>
    intro f2 s h1 h2
    cases s with
    | nil => cases f2 <;> rfl
    | cons c cs =>
      cases f2 with
      | zero => simp at h2
      | succ g =>
        show (match tryMatchPat lit (c :: cs) with
          | some r => repl ++ subPatF lit repl f1 r
          | none => c :: subPatF lit repl f1 cs) =
          (match tryMatchPat lit (c :: cs) with
          | some r => repl ++ subPatF lit repl g r
          | none => c :: subPatF lit repl g cs)
        cases hm : tryMatchPat lit (c :: cs) with
        | some r =>
          have hr := tryMatchPat_len lit (c :: cs) r hm
          simp at hr h1 h2
          show repl ++ subPatF lit repl f1 r = repl ++ subPatF lit repl g r
          rw [ih g r (by omega) (by omega)]
        | none =>
          simp at h1 h2
          show c :: subPatF lit repl f1 cs = c :: subPatF lit repl g cs
          rw [ih g cs (by omega) (by omega)]

/-- Unfolding `subPat` on a successful match. -/
theorem subPat_cons_match (lit repl : List Char) (c : Char) (cs r : List Char)
    (h : tryMatchPat lit (c :: cs) = some r) :
    subPat lit repl (c :: cs) = repl ++ subPat lit repl r := by
  have hr := tryMatchPat_len lit (c :: cs) r h
  show subPatF lit repl (c :: cs).length (c :: cs) = _
  rw [show (c :: cs).length = cs.length + 1 from rfl]
  show (match tryMatchPat lit (c :: cs) with
    | some r => repl ++ subPatF lit repl cs.length r
    | none => c :: subPatF lit repl cs.length cs) = _
  rw [h]
  show repl ++ subPatF lit repl cs.length r = repl ++ subPat lit repl r
  simp at hr
  rw [subPatF_irrel lit repl cs.length r.length r (by omega) (by omega)]
  rfl

/-- Unfolding `subPat` on a failed match. -/
theorem subPat_cons_none (lit repl : List Char) (c : Char) (cs : List Char)
    (h : tryMatchPat lit (c :: cs) = none) :
    subPat lit repl (c :: cs) = c :: subPat lit repl cs := by
  show subPatF lit repl (c :: cs).length (c :: cs) = _
  rw [show (c :: cs).length = cs.length + 1 from rfl]
  show (match tryMatchPat lit (c :: cs) with
    | some r => repl ++ subPatF lit repl cs.length r
    | none => c :: subPatF lit repl cs.length cs) = _
  rw [h]
  rfl

/-- `subPat` on the empty list. -/
theorem subPat_nil (lit repl : List Char) : subPat lit repl [] = [] := rfl

/-- A bracket-free stretch passes through `subPat` untouched. -/
theorem subPat_noBr (l repl : List Char) :
    ∀ s t : List Char, (∀ x ∈ s, x ≠ '[') →
      subPat ('[' :: l) repl (s ++ t) = s ++ subPat ('[' :: l) repl t := by
  intro s
  induction s with
  | nil => intro t _; rfl
  | cons c cs ih =>
    intro t hs
    have hc : c ≠ '[' := hs c (List.mem_cons_self c cs)
    rw [List.cons_append, subPat_cons_none _ _ _ _ (tryMatch_head_ne l c _ hc),
      ih t (fun x hx => hs x (List.mem_cons_of_mem c hx)), List.cons_append]

/-- The lazy scan passes over characters that are neither `]` nor newline. -/
theorem matchLazy_skip :
    ∀ xs t : List Char, (∀ x ∈ xs, x ≠ ']' ∧ x ≠ '\n') →
      matchLazy (xs ++ t) = matchLazy t := by
  intro xs
  induction xs with
  | nil => intro t _; rfl
  | cons c xs ih =>
    intro t hx
    have hc := hx c (List.mem_cons_self c xs)
    have hrec : matchLazy (xs ++ t) = matchLazy t :=
      ih t (fun x h => hx x (List.mem_cons_of_mem c h))
    rw [List.cons_append]
    cases hxt : xs ++ t with
    | nil =>
      have ht : t = [] := (List.append_eq_nil.mp hxt).2
      rw [ht]
      rfl
    | cons d cs2 =>
      have hml : matchLazy (c :: d :: cs2) =
          (if c = ']' ∧ d = '(' then
            match findCloseParen cs2 with
            | some r => some r
            | none => matchLazy (d :: cs2)
          else if c = '\n' then none else matchLazy (d :: cs2)) := rfl
      rw [hml, if_neg (fun hcd => hc.1 hcd.1), if_neg hc.2, ← hxt, hrec]

/-- A whole badge link headed by its own literal is matched in one step,
leaving exactly the remainder after the link. -/
theorem tryMatchPat_mkLink (lit u T : List Char)
    (hu : ∀ x ∈ u, x ≠ ']' ∧ x ≠ '\n' ∧ x ≠ ')') :
    tryMatchPat lit (mkLink lit u ++ T) = some T := by
  unfold tryMatchPat mkLink
  rw [List.append_assoc, dropPre_self_append]
  show matchLazy (('(' :: (u ++ ')' :: ']' :: '(' :: '#' :: ')' :: [])) ++ T) = some T
  have hsh : (('(' :: (u ++ ')' :: ']' :: '(' :: '#' :: ')' :: [])) ++ T) =
      ('(' :: (u ++ [')'])) ++ (']' :: '(' :: '#' :: ')' :: T) := by
    simp
  rw [hsh, matchLazy_skip ('(' :: (u ++ [')'])) _ ?_]
  · have hml : matchLazy (']' :: '(' :: '#' :: ')' :: T) =
        (if (']' : Char) = ']' ∧ ('(' : Char) = '(' then
          match findCloseParen ('#' :: ')' :: T) with
          | some r => some r
          | none => matchLazy ('(' :: '#' :: ')' :: T)
        else if (']' : Char) = '\n' then none
        else matchLazy ('(' :: '#' :: ')' :: T)) := rfl
    rw [hml, if_pos ⟨rfl, rfl⟩]
    have hf : findCloseParen ('#' :: ')' :: T) = some T := by
      unfold findCloseParen
      rw [if_neg (by decide)]
      unfold findCloseParen
      rw [if_pos rfl]
    rw [hf]
  · intro x hx
    rcases List.mem_cons.mp hx with rfl | hx2
    · exact ⟨by decide, by decide⟩
    rcases List.mem_append.mp hx2 with hxu | hx1
    · exact ⟨(hu x hxu).1, (hu x hxu).2.1⟩
    · have hx3 : x = ')' := List.mem_singleton.mp hx1
      subst hx3
      exact ⟨by decide, by decide⟩

/-- Unfolding `subPat` on any successful match of a `[`-headed pattern. -/
theorem subPat_match (l repl s r : List Char)
    (h : tryMatchPat ('[' :: l) s = some r) :
    subPat ('[' :: l) repl s = repl ++ subPat ('[' :: l) repl r := by
  cases s with
  | nil => simp [tryMatchPat, dropPre] at h
  | cons c cs => exact subPat_cons_match _ _ _ _ _ h

/-- `subPat` replaces a link of its own category and moves on. -/
theorem subPat_mkLink_same (l repl u T : List Char)
    (hu : ∀ x ∈ u, x ≠ ']' ∧ x ≠ '\n' ∧ x ≠ ')') :
    subPat ('[' :: l) repl (mkLink ('[' :: l) u ++ T) =
      repl ++ subPat ('[' :: l) repl T :=
  subPat_match l repl _ T (tryMatchPat_mkLink ('[' :: l) u T hu)

/-- `subPat` walks over a whole link of a foreign category untouched,
provided the pattern fails at the link's two bracket positions. -/
theorem subPat_passLink (l repl w u T : List Char)
    (h0 : tryMatchPat ('[' :: l)
      ('[' :: '!' :: '[' :: (w ++ '(' :: (u ++ ')' :: ']' :: '(' :: '#' :: ')' :: T)))
      = none)
    (h2 : tryMatchPat ('[' :: l)
      ('[' :: (w ++ '(' :: (u ++ ')' :: ']' :: '(' :: '#' :: ')' :: T))) = none)
    (hw : ∀ x ∈ w, x ≠ '[') (hu : ∀ x ∈ u, x ≠ '[') :
    subPat ('[' :: l) repl
        ('[' :: '!' :: '[' :: (w ++ '(' :: (u ++ ')' :: ']' :: '(' :: '#' :: ')' :: T)))
      = '[' :: '!' :: '[' :: (w ++ '(' :: (u ++ ')' :: ']' :: '(' :: '#' :: ')' ::
          subPat ('[' :: l) repl T)) := by
  rw [subPat_cons_none _ _ _ _ h0]
  rw [subPat_cons_none _ _ _ _ (tryMatch_head_ne l '!' _ (by decide))]
  rw [subPat_cons_none _ _ _ _ h2]
  rw [subPat_noBr l repl w _ hw]
  rw [subPat_cons_none _ _ _ _ (tryMatch_head_ne l '(' _ (by decide))]
  rw [subPat_noBr l repl u _ hu]
  rw [subPat_cons_none _ _ _ _ (tryMatch_head_ne l ')' _ (by decide))]
  rw [subPat_cons_none _ _ _ _ (tryMatch_head_ne l ']' _ (by decide))]
  rw [subPat_cons_none _ _ _ _ (tryMatch_head_ne l '(' _ (by decide))]
  rw [subPat_cons_none _ _ _ _ (tryMatch_head_ne l '#' _ (by decide))]
  rw [subPat_cons_none _ _ _ _ (tryMatch_head_ne l ')' _ (by decide))]

/-- Character form of the Build Status literal. -/
theorem catLit_bld :
    catLit BCat.bld =
      ['[', '!', '[', 'B', 'u', 'i', 'l', 'd', ' ', 'S', 't', 'a', 't', 'u', 's', ']'] := by
  decide

/-- Character form of the Test Coverage literal. -/
theorem catLit_cov :
    catLit BCat.cov =
      ['[', '!', '[', 'T', 'e', 's', 't', ' ', 'C', 'o', 'v', 'e', 'r', 'a', 'g', 'e', ']'] := by
  decide

/-- Character form of the Tests literal. -/
theorem catLit_tst :
    catLit BCat.tst = ['[', '!', '[', 'T', 'e', 's', 't', 's', ']'] := by
  decide

/-- Character form of the Version literal. -/
theorem catLit_ver :
    catLit BCat.ver = ['[', '!', '[', 'V', 'e', 'r', 's', 'i', 'o', 'n', ']'] := by
  decide

/-- `subPat` for one category leaves a link of a different category (and
hence the text around it) unchanged. -/
theorem subPat_mkLink_other (c c2 : BCat) (hne : c2 ≠ c) (repl u T : List Char)
    (hu : ∀ x ∈ u, x ≠ '[') :
    subPat (catLit c) repl (mkLink (catLit c2) u ++ T) =
      mkLink (catLit c2) u ++ subPat (catLit c) repl T := by
  cases c2 with
  | bld =>
    cases c <;> first
      | exact absurd rfl hne
      | (simp only [catLit_bld, catLit_cov, catLit_tst, catLit_ver, mkLink,
          List.cons_append, List.nil_append, List.append_assoc]
         exact subPat_passLink _ repl
           ['B', 'u', 'i', 'l', 'd', ' ', 'S', 't', 'a', 't', 'u', 's', ']'] u _
           (tryMatchPat_of_dropPre_none _ _
             (dropPre_none_of_take_eq _ _ ['[', '!', '[', 'B', 'u', 'i', 'l', 'd'] 8 (by decide) rfl (by decide)))
           (tryMatchPat_of_dropPre_none _ _
             (dropPre_none_of_take_eq _ _ ['[', 'B'] 2 (by decide) rfl (by decide)))
           (by decide) hu)
  | cov =>
    cases c <;> first
      | exact absurd rfl hne
      | (simp only [catLit_bld, catLit_cov, catLit_tst, catLit_ver, mkLink,
          List.cons_append, List.nil_append, List.append_assoc]
         exact subPat_passLink _ repl
           ['T', 'e', 's', 't', ' ', 'C', 'o', 'v', 'e', 'r', 'a', 'g', 'e', ']'] u _
           (tryMatchPat_of_dropPre_none _ _
             (dropPre_none_of_take_eq _ _ ['[', '!', '[', 'T', 'e', 's', 't', ' '] 8 (by decide) rfl (by decide)))
           (tryMatchPat_of_dropPre_none _ _
             (dropPre_none_of_take_eq _ _ ['[', 'T'] 2 (by decide) rfl (by decide)))
           (by decide) hu)
  | tst =>
    cases c <;> first
      | exact absurd rfl hne
      | (simp only [catLit_bld, catLit_cov, catLit_tst, catLit_ver, mkLink,
          List.cons_append, List.nil_append, List.append_assoc]
         exact subPat_passLink _ repl ['T', 'e', 's', 't', 's', ']'] u _
           (tryMatchPat_of_dropPre_none _ _
             (dropPre_none_of_take_eq _ _ ['[', '!', '[', 'T', 'e', 's', 't', 's'] 8 (by decide) rfl (by decide)))
           (tryMatchPat_of_dropPre_none _ _
             (dropPre_none_of_take_eq _ _ ['[', 'T'] 2 (by decide) rfl (by decide)))
           (by decide) hu)
  | ver =>
    cases c <;> first
      | exact absurd rfl hne
      | (simp only [catLit_bld, catLit_cov, catLit_tst, catLit_ver, mkLink,
          List.cons_append, List.nil_append, List.append_assoc]
         exact subPat_passLink _ repl ['V', 'e', 'r', 's', 'i', 'o', 'n', ']'] u _
           (tryMatchPat_of_dropPre_none _ _
             (dropPre_none_of_take_eq _ _ ['[', '!', '[', 'V', 'e', 'r', 's', 'i'] 8 (by decide) rfl (by decide)))
           (tryMatchPat_of_dropPre_none _ _
             (dropPre_none_of_take_eq _ _ ['[', 'V'] 2 (by decide) rfl (by decide)))
           (by decide) hu)

/-- One substitution pass over an assembled README: every link of the
pattern's own category is replaced (with the fresh URL), every other link
and every plain segment is left unchanged. -/
theorem subPat_assemble (c : BCat) (url : List Char) :
    ∀ (items : List (BCat × List Char × List Char)) (s0 : List Char),
      noBr s0 → (∀ x ∈ items, urlOk x.2.1 ∧ noBr x.2.2) →
      subPat (catLit c) (mkLink (catLit c) url) (assemble s0 items) =
        assemble s0 (items.map fun x => (x.1, if x.1 = c then url else x.2.1, x.2.2)) := by
  obtain ⟨l, hl⟩ : ∃ l, catLit c = '[' :: l := by cases c <;> exact ⟨_, rfl⟩
  intro items
  induction items with
  | nil =>
    intro s0 hs0 _
    have h1 : subPat ('[' :: l) (mkLink (catLit c) url) (s0 ++ []) =
        s0 ++ subPat ('[' :: l) (mkLink (catLit c) url) [] :=
      subPat_noBr l _ s0 [] hs0
    rw [List.append_nil, subPat_nil, List.append_nil] at h1
    rw [← hl] at h1
    exact h1
  | cons item rest ih =>
    intro s0 hs0 hitems
    obtain ⟨c2, u, s⟩ := item
    have hu : urlOk u := (hitems (c2, u, s) (List.mem_cons_self _ _)).1
    have hsOk : noBr s := (hitems (c2, u, s) (List.mem_cons_self _ _)).2
    have hrest : ∀ x ∈ rest, urlOk x.2.1 ∧ noBr x.2.2 :=
      fun x hx => hitems x (List.mem_cons_of_mem _ hx)
    simp only [assemble, List.map_cons]
    have hstep : subPat (catLit c) (mkLink (catLit c) url)
        (s0 ++ (mkLink (catLit c2) u ++ assemble s rest)) =
        s0 ++ subPat (catLit c) (mkLink (catLit c) url)
          (mkLink (catLit c2) u ++ assemble s rest) := by
      rw [hl]
      exact subPat_noBr l _ s0 _ hs0
    rw [List.append_assoc, hstep]
    by_cases hcc : c2 = c
    · subst hcc
      rw [hl, subPat_mkLink_same l _ u _
        (fun x hx => ⟨(hu x hx).2.1, (hu x hx).2.2.2.1, (hu x hx).2.2.1⟩), ← hl]
      rw [ih s hsOk hrest, if_pos rfl, List.append_assoc]
    · rw [subPat_mkLink_other c c2 hcc _ u _ (fun x hx => (hu x hx).1)]
      rw [ih s hsOk hrest, if_neg hcc, List.append_assoc]

/-- Applying one category's substitution preserves the well-formedness of
the assembled items, provided the fresh URL is itself well behaved. -/
theorem urlOk_map_pres (c : BCat) (url : List Char) (hurl : urlOk url)
    (its : List (BCat × List Char × List Char))
    (hits : ∀ x ∈ its, urlOk x.2.1 ∧ noBr x.2.2) :
    ∀ x ∈ its.map (fun x => (x.1, if x.1 = c then url else x.2.1, x.2.2)),
      urlOk x.2.1 ∧ noBr x.2.2 := by
  intro x hx
  obtain ⟨y, hy, rfl⟩ := List.mem_map.mp hx
  refine ⟨?_, (hits y hy).2⟩
  dsimp only
  split
  · exact hurl
  · exact (hits y hy).1

/-- Counterexample to claim C2 as stated: a README with two Tests badge
links has BOTH rewritten (`re.sub` without a count replaces every match),
not only the first. -/
theorem claim_C2_counterexample :
    update_readme ⟨("B").toList, ("C").toList, ("T").toList, ("V").toList⟩
        (("x [![Tests](a)](#) y [![Tests](b)](#) z").toList) =
        (("x [![Tests](T)](#) y [![Tests](T)](#) z").toList) ∧
      update_readme ⟨("B").toList, ("C").toList, ("T").toList, ("V").toList⟩
        (("x [![Tests](a)](#) y [![Tests](b)](#) z").toList) ≠
        (("x [![Tests](T)](#) y [![Tests](b)](#) z").toList) := by
  constructor
  · decide
  · decide

/-- Claim C2, amended: for each of the four badge categories the README
updater replaces EVERY (leftmost, non-overlapping) markdown image-link
matching that category's bracket/parenthesis pattern — not only the first —
with the new badge link and a placeholder anchor target, leaving all other
content unchanged.  Stated over any README assembled from bracket-free
segments and well-formed badge links. -/
theorem claim_C2_amended (b : Badges) (s0 : List Char)
    (items : List (BCat × List Char × List Char))
    (hs0 : noBr s0) (hitems : ∀ x ∈ items, urlOk x.2.1 ∧ noBr x.2.2)
    (hb : urlOk b.build ∧ urlOk b.coverage ∧ urlOk b.tests ∧ urlOk b.version) :
    update_readme b (assemble s0 items) =
      assemble s0 (items.map fun x => (x.1, catUrl b x.1, x.2.2)) := by
  have e1 : ("[![Build Status]").toList = catLit BCat.bld := rfl
  have e2 : ("[![Test Coverage]").toList = catLit BCat.cov := rfl
  have e3 : ("[![Tests]").toList = catLit BCat.tst := rfl
  have e4 : ("[![Version]").toList = catLit BCat.ver := rfl
  unfold update_readme
  rw [e1, e2, e3, e4]
  rw [subPat_assemble BCat.bld b.build items s0 hs0 hitems]
  rw [subPat_assemble BCat.cov b.coverage _ s0 hs0
    (urlOk_map_pres BCat.bld b.build hb.1 items hitems)]
  rw [subPat_assemble BCat.tst b.tests _ s0 hs0
    (urlOk_map_pres BCat.cov b.coverage hb.2.1 _
      (urlOk_map_pres BCat.bld b.build hb.1 items hitems))]
  rw [subPat_assemble BCat.ver b.version _ s0 hs0
    (urlOk_map_pres BCat.tst b.tests hb.2.2.1 _
      (urlOk_map_pres BCat.cov b.coverage hb.2.1 _
        (urlOk_map_pres BCat.bld b.build hb.1 items hitems)))]
  congr 1
  simp only [List.map_map]
  apply List.map_congr_left
  intro x _
  obtain ⟨cx, ux, sx⟩ := x
  cases cx <;> simp [catUrl]

/-- Witness for the amended C2: a README with one link per category, all
four rewritten to the fresh badge URLs. -/
theorem claim_C2_witness :
    update_readme ⟨("B").toList, ("C").toList, ("T").toList, ("V").toList⟩
        (assemble (("# hd ").toList)
          [(BCat.bld, ("b0").toList, (" ").toList),
            (BCat.cov, ("c0").toList, (" ").toList),
            (BCat.tst, ("t0").toList, (" ").toList),
            (BCat.ver, ("v0").toList, (" tail").toList)]) =
      assemble (("# hd ").toList)
        [(BCat.bld, ("B").toList, (" ").toList),
          (BCat.cov, ("C").toList, (" ").toList),
          (BCat.tst, ("T").toList, (" ").toList),
          (BCat.ver, ("V").toList, (" tail").toList)] := by
  have h := claim_C2_amended
    ⟨("B").toList, ("C").toList, ("T").toList, ("V").toList⟩
    (("# hd ").toList)
    [(BCat.bld, ("b0").toList, (" ").toList),
      (BCat.cov, ("c0").toList, (" ").toList),
      (BCat.tst, ("t0").toList, (" ").toList),
      (BCat.ver, ("v0").toList, (" tail").toList)]
    (by unfold noBr; decide) (by unfold urlOk noBr; decide) (by unfold urlOk; decide)
  rw [h]
  decide
